import Mathlib

/-!
Shallow embedding of the `gfp_tasker_v0` core (src/main.py, src/storage.py,
src/models.py): the JSON record store and the membership-scoped API handlers.

Conventions of the embedding:
* Generated values (uuid4, utcnow, password hash) are passed as explicit inputs.
* `datetime` values are opaque strings.
* Each HTTP handler is a function from the storage state (plus its inputs) to a
  pair `(Except Failure result, Store)`: raising an `HTTPException` aborts the
  handler, and in every handler of src/main.py every `raise` occurs before the
  single `storage.save_* / storage.update_*` call, so an error leaves the
  persisted collections exactly as they were.
* In `update_task_status` (src/main.py lines 188-220) the parameter `status : str`
  shadows the module `fastapi.status`, so evaluating `status.HTTP_404_NOT_FOUND`,
  `status.HTTP_403_FORBIDDEN` or `status.HTTP_400_BAD_REQUEST` on the error paths
  raises `AttributeError` on a `str` object before the `HTTPException` is built.
  The embedding records this as `Failure.attributeError`.
-/

namespace Tasker

/-- A stored user record (src/main.py `register`, src/models.py `User` plus the
`hashed_password` field kept in storage). -/
structure User where
  id : String
  email : String
  name : String
  created_at : String
  hashed_password : String
deriving Repr, DecidableEq

/-- A stored project record (src/main.py `create_project`, src/models.py `Project`). -/
structure Project where
  id : String
  name : String
  description : Option String
  owner_id : String
  created_at : String
  members : List String
deriving Repr, DecidableEq

/-- A stored task record (src/main.py `create_task`, src/models.py `Task`).
`assignee_id` is absent at creation and set by `assign_task`. -/
structure Task where
  id : String
  title : String
  description : Option String
  project_id : String
  created_at : String
  status : String
  assignee_id : Option String
deriving Repr, DecidableEq

/-- Request body for `register` (src/models.py `UserCreate`). -/
structure UserCreate where
  email : String
  name : String
  password : String
deriving Repr, DecidableEq

/-- Request body for `create_project` / `update_project` (src/models.py `ProjectCreate`). -/
structure ProjectCreate where
  name : String
  description : Option String
deriving Repr, DecidableEq

/-- Request body for `create_task` / `update_task` (src/models.py `TaskCreate`). -/
structure TaskCreate where
  title : String
  description : Option String
  project_id : String
deriving Repr, DecidableEq

/-- An `HTTPException(status_code, detail)` as raised in src/main.py. -/
structure HTTPError where
  code : Nat
  detail : String
deriving Repr, DecidableEq

/-- A Python exception escaping a handler: either a deliberate `HTTPException`,
or the `AttributeError` produced in `update_task_status` where the `status`
parameter shadows the `fastapi.status` module. -/
inductive Failure where
  | http (e : HTTPError)
  | attributeError (msg : String)
deriving Repr, DecidableEq

/-- The three persisted collections of `JSONStorage` (src/storage.py):
`users.json`, `projects.json`, `tasks.json`, each a list in file order. -/
structure Store where
  users : List User
  projects : List Project
  tasks : List Task
deriving Repr, DecidableEq

/-- The state of a fresh `JSONStorage` directory: three empty collections. -/
def emptyStore : Store := ⟨[], [], []⟩

/-- Embedding of `JSONStorage.update_project` (src/storage.py lines 60-66) as invoked from
src/main.py: the caller always passes a complete record dict, so
`{**project, **project_data}` equals the passed record; the loop replaces the
first record whose `id` matches and `break`s, leaving the rest untouched. -/
def updateProjectRecord (projects : List Project) (project_id : String) (rec : Project) :
    List Project :=
  match projects with
  | [] => []
  | p :: rest =>
    if p.id = project_id then rec :: rest
    else p :: updateProjectRecord rest project_id rec

/-- Embedding of `JSONStorage.update_task` (src/storage.py lines 68-74) as invoked from
src/main.py: the caller always passes a complete record dict, so
`{**task, **task_data}` equals the passed record. -/
def updateTaskRecord (tasks : List Task) (task_id : String) (rec : Task) :
    List Task :=
  match tasks with
  | [] => []
  | t :: rest =>
    if t.id = task_id then rec :: rest
    else t :: updateTaskRecord rest task_id rec

/-- The detail string of the `HTTPException` shared by the project-absent and
actor-not-a-member branches of `create_task` (src/main.py line 133). -/
def projectNotFoundOrDenied : Failure :=
  .http ⟨404, "Project not found or access denied"⟩

/-- Handler `register` (src/main.py lines 42-60). `new_id` stands for `str(uuid.uuid4())`,
`hashed_password` for `get_password_hash(user.password)`, `created_at` for the
formatted `datetime.utcnow()`. -/
def register (st : Store) (user : UserCreate) (new_id hashed_password created_at : String) :
    Except Failure User × Store :=
  if st.users.any (fun u => u.email = user.email) then
    (.error (.http ⟨400, "Email already registered"⟩), st)
  else
    let user_rec : User := ⟨new_id, user.email, user.name, created_at, hashed_password⟩
    (.ok user_rec, { st with users := st.users ++ [user_rec] })

/-- Handler `create_project` (src/main.py lines 101-115); it performs no check and
cannot raise. -/
def create_project (st : Store) (project : ProjectCreate) (current_user : User)
    (new_id created_at : String) : Project × Store :=
  let project_rec : Project :=
    ⟨new_id, project.name, project.description, current_user.id, created_at,
      [current_user.id]⟩
  (project_rec, { st with projects := st.projects ++ [project_rec] })

/-- Handler `create_task` (src/main.py lines 122-145). The combined test
`if not project or current_user.id not in project["members"]` raises the same
404 `HTTPException` in both cases. -/
def create_task (st : Store) (task : TaskCreate) (current_user : User)
    (new_id created_at : String) : Except Failure Task × Store :=
  match st.projects.find? (fun p => p.id = task.project_id) with
  | none => (.error projectNotFoundOrDenied, st)
  | some project =>
    if current_user.id ∉ project.members then
      (.error projectNotFoundOrDenied, st)
    else
      let task_rec : Task :=
        ⟨new_id, task.title, task.description, task.project_id, created_at, "todo", none⟩
      (.ok task_rec, { st with tasks := st.tasks ++ [task_rec] })

/-- Handler `assign_task` (src/main.py lines 154-186). On success the in-memory task
dict gets `assignee_id` set and is passed whole to `storage.update_task`. -/
def assign_task (st : Store) (task_id assignee_id : String) (current_user : User) :
    Except Failure Task × Store :=
  match st.tasks.find? (fun t => t.id = task_id) with
  | none => (.error (.http ⟨404, "Task not found"⟩), st)
  | some task =>
    match st.projects.find? (fun p => p.id = task.project_id) with
    | none => (.error (.http ⟨403, "Access denied"⟩), st)
    | some project =>
      if current_user.id ∉ project.members then
        (.error (.http ⟨403, "Access denied"⟩), st)
      else if assignee_id ∉ project.members then
        (.error (.http ⟨400, "Assignee must be a project member"⟩), st)
      else
        let updated : Task := { task with assignee_id := some assignee_id }
        (.ok updated, { st with tasks := updateTaskRecord st.tasks task_id updated })

/-- The list `valid_statuses` (src/main.py line 211). -/
def valid_statuses : List String := ["todo", "in_progress", "done"]

/-- Handler `update_task_status` (src/main.py lines 188-220). The parameter named
`status` shadows the imported `fastapi.status` module, so each error branch
evaluates `status.HTTP_...` on a `str` and raises `AttributeError` instead of
the intended `HTTPException`; the embedding surfaces `Failure.attributeError`
on those branches. -/
def update_task_status (st : Store) (task_id status : String) (current_user : User) :
    Except Failure Task × Store :=
  match st.tasks.find? (fun t => t.id = task_id) with
  | none =>
    (.error (.attributeError "str object has no attribute HTTP_404_NOT_FOUND"), st)
  | some task =>
    match st.projects.find? (fun p => p.id = task.project_id) with
    | none =>
      (.error (.attributeError "str object has no attribute HTTP_403_FORBIDDEN"), st)
    | some project =>
      if current_user.id ∉ project.members then
        (.error (.attributeError "str object has no attribute HTTP_403_FORBIDDEN"), st)
      else if status ∉ valid_statuses then
        (.error (.attributeError "str object has no attribute HTTP_400_BAD_REQUEST"), st)
      else
        let updated : Task := { task with status := status }
        (.ok updated, { st with tasks := updateTaskRecord st.tasks task_id updated })

/-- Handler `update_project` (src/main.py lines 222-253): owner-only edit of `name` and
`description`; `{**project, "name": ..., "description": ...}` keeps every other
field of the found record. -/
def update_project (st : Store) (project_id : String) (project_data : ProjectCreate)
    (current_user : User) : Except Failure Project × Store :=
  match st.projects.find? (fun p => p.id = project_id) with
  | none => (.error (.http ⟨404, "Project not found"⟩), st)
  | some project =>
    if project.owner_id ≠ current_user.id then
      (.error (.http ⟨403, "Only project owner can edit the project"⟩), st)
    else
      let updated : Project :=
        { project with name := project_data.name, description := project_data.description }
      (.ok updated, { st with projects := updateProjectRecord st.projects project_id updated })

/-- Handler `update_task` (src/main.py lines 255-288): member-only edit of `title` and
`description`. The request body is a full `TaskCreate` (including a
`project_id` field), but only `title` and `description` are copied into
`{**task, "title": ..., "description": ...}`. -/
def update_task (st : Store) (task_id : String) (task_data : TaskCreate)
    (current_user : User) : Except Failure Task × Store :=
  match st.tasks.find? (fun t => t.id = task_id) with
  | none => (.error (.http ⟨404, "Task not found"⟩), st)
  | some task =>
    match st.projects.find? (fun p => p.id = task.project_id) with
    | none => (.error (.http ⟨403, "Access denied"⟩), st)
    | some project =>
      if current_user.id ∉ project.members then
        (.error (.http ⟨403, "Access denied"⟩), st)
      else
        let updated : Task :=
          { task with title := task_data.title, description := task_data.description }
        (.ok updated, { st with tasks := updateTaskRecord st.tasks task_id updated })

/-! ### The store-level `update` on raw JSON records

src/storage.py works on untyped dicts. To state the store-level merge
contract (`{**task, **task_data}`) we model a JSON record as an association
list of field name / value pairs (values opaque as strings), with Python dict
key-lookup semantics. -/

/-- A raw JSON record: an ordered association list of fields, as produced by
`json.load` (keys of an actual dict are distinct). -/
abbrev RawRecord : Type := List (String × String)

/-- Lookup `r[k]` made total: the value at the first occurrence of key `k`. -/
def getField (r : RawRecord) (k : String) : Option String :=
  (List.find? (fun kv => kv.1 = k) r).map (fun kv => kv.2)

/-- Python dict merge `{**rec, **patch}`: the keys of `rec` in their order,
each taking the value from `patch` when `patch` has that key, followed by the
keys of `patch` that are new, in their order. -/
def dictMerge (rec patch : RawRecord) : RawRecord :=
  List.map
    (fun kv =>
      match getField patch kv.1 with
      | some v => (kv.1, v)
      | none => kv)
    rec
  ++ List.filter (fun kv => (getField rec kv.1).isNone) patch

/-- Function `JSONStorage.update_task` (src/storage.py lines 68-74): scan the collection
in order; at the first record whose `"id"` field equals `task_id`, replace it
with `{**task, **task_data}` and `break`; then write the whole list back. A
record with no `"id"` field makes `task["id"]` raise `KeyError`, modelled as
`none`; otherwise the (possibly unchanged) persisted list is returned.
`JSONStorage.update_user` (lines 52-58) and `JSONStorage.update_project`
(lines 60-66) are the same code on the other two collections. -/
def JSONStorage.update_task (tasks : List RawRecord) (task_id : String)
    (task_data : RawRecord) : Option (List RawRecord) :=
  match tasks with
  | [] => some []
  | t :: rest =>
    match getField t "id" with
    | none => none
    | some i =>
      if i = task_id then some (dictMerge t task_data :: rest)
      else Option.map (fun l => t :: l) (JSONStorage.update_task rest task_id task_data)

/-- A storage state reachable through the API of src/main.py, starting from a
fresh data directory. `login`, `read_users_me`, `get_projects` and `get_tasks`
never write, so they are omitted; each mutating handler's resulting store
(second component, unchanged when the handler raised) is reachable. -/
inductive Reachable : Store → Prop where
  | init : Reachable emptyStore
  | register (st : Store) (u : UserCreate) (nid hp ca : String) :
      Reachable st → Reachable (register st u nid hp ca).2
  | create_project (st : Store) (p : ProjectCreate) (cu : User) (nid ca : String) :
      Reachable st → Reachable (create_project st p cu nid ca).2
  | create_task (st : Store) (t : TaskCreate) (cu : User) (nid ca : String) :
      Reachable st → Reachable (create_task st t cu nid ca).2
  | assign_task (st : Store) (tid aid : String) (cu : User) :
      Reachable st → Reachable (assign_task st tid aid cu).2
  | update_task_status (st : Store) (tid s : String) (cu : User) :
      Reachable st → Reachable (update_task_status st tid s cu).2
  | update_project (st : Store) (pid : String) (pd : ProjectCreate) (cu : User) :
      Reachable st → Reachable (update_project st pid pd cu).2
  | update_task (st : Store) (tid : String) (td : TaskCreate) (cu : User) :
      Reachable st → Reachable (update_task st tid td cu).2

/-! ### Concrete fixtures (the scenario of spec §8): two users, one project
owned by the first, one task in it. -/

/-- Registration request for the first sample user. -/
def aliceCreate : UserCreate := ⟨"alice@example.com", "Alice", "pwA"⟩

/-- Registration request for the second sample user. -/
def bobCreate : UserCreate := ⟨"bob@example.com", "Bob", "pwB"⟩

/-- The first sample user as stored. -/
def alice : User := ⟨"uA", "alice@example.com", "Alice", "t0", "hA"⟩

/-- The second sample user as stored. -/
def bob : User := ⟨"uB", "bob@example.com", "Bob", "t1", "hB"⟩

/-- Store after Alice registers. -/
def st1 : Store := (register emptyStore aliceCreate "uA" "hA" "t0").2

/-- Store after Bob registers. -/
def st2 : Store := (register st1 bobCreate "uB" "hB" "t1").2

/-- Store after Alice creates project `pA`. -/
def st3 : Store := (create_project st2 ⟨"Proj", none⟩ alice "pA" "t2").2

/-- The sample project as stored: owner Alice, members exactly `["uA"]`. -/
def projA : Project := ⟨"pA", "Proj", none, "uA", "t2", ["uA"]⟩

/-- Store after Alice creates task `tA` in project `pA`. -/
def st4 : Store := (create_task st3 ⟨"T1", none, "pA"⟩ alice "tA" "t3").2

/-- The sample task as stored. -/
def taskA : Task := ⟨"tA", "T1", none, "pA", "t3", "todo", none⟩

/-! ### Frame lemmas: which collections each handler can touch. -/

theorem register_projects_eq (st : Store) (uc : UserCreate) (nid hp ca : String) :
    (register st uc nid hp ca).2.projects = st.projects := by
  unfold register; split <;> rfl

theorem register_tasks_eq (st : Store) (uc : UserCreate) (nid hp ca : String) :
    (register st uc nid hp ca).2.tasks = st.tasks := by
  unfold register; split <;> rfl

theorem create_project_users_eq (st : Store) (p : ProjectCreate) (cu : User)
    (nid ca : String) : (create_project st p cu nid ca).2.users = st.users := rfl

theorem create_project_tasks_eq (st : Store) (p : ProjectCreate) (cu : User)
    (nid ca : String) : (create_project st p cu nid ca).2.tasks = st.tasks := rfl

theorem create_project_projects_eq (st : Store) (p : ProjectCreate) (cu : User)
    (nid ca : String) :
    (create_project st p cu nid ca).2.projects
      = st.projects ++ [⟨nid, p.name, p.description, cu.id, ca, [cu.id]⟩] := rfl

theorem create_task_users_eq (st : Store) (t : TaskCreate) (cu : User) (nid ca : String) :
    (create_task st t cu nid ca).2.users = st.users := by
  unfold create_task; (repeat' split) <;> rfl

theorem create_task_projects_eq (st : Store) (t : TaskCreate) (cu : User) (nid ca : String) :
    (create_task st t cu nid ca).2.projects = st.projects := by
  unfold create_task; (repeat' split) <;> rfl

theorem assign_task_users_eq (st : Store) (tid aid : String) (cu : User) :
    (assign_task st tid aid cu).2.users = st.users := by
  unfold assign_task; (repeat' split) <;> rfl

theorem assign_task_projects_eq (st : Store) (tid aid : String) (cu : User) :
    (assign_task st tid aid cu).2.projects = st.projects := by
  unfold assign_task; (repeat' split) <;> rfl

theorem update_task_status_users_eq (st : Store) (tid s : String) (cu : User) :
    (update_task_status st tid s cu).2.users = st.users := by
  unfold update_task_status; (repeat' split) <;> rfl

theorem update_task_status_projects_eq (st : Store) (tid s : String) (cu : User) :
    (update_task_status st tid s cu).2.projects = st.projects := by
  unfold update_task_status; (repeat' split) <;> rfl

theorem update_project_users_eq (st : Store) (pid : String) (pd : ProjectCreate) (cu : User) :
    (update_project st pid pd cu).2.users = st.users := by
  unfold update_project; (repeat' split) <;> rfl

theorem update_project_tasks_eq (st : Store) (pid : String) (pd : ProjectCreate) (cu : User) :
    (update_project st pid pd cu).2.tasks = st.tasks := by
  unfold update_project; (repeat' split) <;> rfl

theorem update_task_users_eq (st : Store) (tid : String) (td : TaskCreate) (cu : User) :
    (update_task st tid td cu).2.users = st.users := by
  unfold update_task; (repeat' split) <;> rfl

theorem update_task_projects_eq (st : Store) (tid : String) (td : TaskCreate) (cu : User) :
    (update_task st tid td cu).2.projects = st.projects := by
  unfold update_task; (repeat' split) <;> rfl

/-! ### List lemmas about first-match scans. -/

theorem find?_append_cons {α : Type} (p : α → Bool) (pre suf : List α) (a : α)
    (hpre : ∀ x ∈ pre, p x = false) (ha : p a = true) :
    List.find? p (pre ++ a :: suf) = some a := by
  induction pre with
  | nil => simp [List.find?_cons_of_pos, ha]
  | cons x rest ih =>
    have hx : p x = false := hpre x (List.mem_cons_self x rest)
    rw [List.cons_append, List.find?_cons_of_neg _ (by simp [hx])]
    exact ih (fun y hy => hpre y (List.mem_cons_of_mem x hy))

theorem updateProjectRecord_append_cons (pre suf : List Project) (P rec : Project)
    (pid : String) (hpre : ∀ q ∈ pre, q.id ≠ pid) (hid : P.id = pid) :
    updateProjectRecord (pre ++ P :: suf) pid rec = pre ++ rec :: suf := by
  induction pre with
  | nil => simp [updateProjectRecord, hid]
  | cons x rest ih =>
    have hx : x.id ≠ pid := hpre x (List.mem_cons_self x rest)
    rw [List.cons_append, updateProjectRecord, if_neg hx,
      ih (fun y hy => hpre y (List.mem_cons_of_mem x hy)), List.cons_append]

theorem updateTaskRecord_append_cons (pre suf : List Task) (T rec : Task)
    (tid : String) (hpre : ∀ q ∈ pre, q.id ≠ tid) (hid : T.id = tid) :
    updateTaskRecord (pre ++ T :: suf) tid rec = pre ++ rec :: suf := by
  induction pre with
  | nil => simp [updateTaskRecord, hid]
  | cons x rest ih =>
    have hx : x.id ≠ tid := hpre x (List.mem_cons_self x rest)
    rw [List.cons_append, updateTaskRecord, if_neg hx,
      ih (fun y hy => hpre y (List.mem_cons_of_mem x hy)), List.cons_append]

theorem updateProjectRecord_mem (l : List Project) (pid : String) (rec q : Project)
    (hq : q ∈ updateProjectRecord l pid rec) : q ∈ l ∨ q = rec := by
  induction l with
  | nil => exact absurd hq (by simp [updateProjectRecord])
  | cons p rest ih =>
    rw [updateProjectRecord] at hq
    split at hq
    · rcases List.mem_cons.mp hq with rfl | h
      · exact Or.inr rfl
      · exact Or.inl (List.mem_cons_of_mem p h)
    · rcases List.mem_cons.mp hq with rfl | h
      · exact Or.inl (List.mem_cons_self _ _)
      · rcases ih h with h2 | h2
        · exact Or.inl (List.mem_cons_of_mem p h2)
        · exact Or.inr h2

/-! ### Invariants of reachable stores. -/

/-- Every project present after `update_project` is either an old record or an
old record with only `name` and `description` replaced. -/
theorem update_project_projects_sub (st : Store) (pid : String) (pd : ProjectCreate)
    (cu : User) (q : Project) (hq : q ∈ (update_project st pid pd cu).2.projects) :
    q ∈ st.projects ∨
      ∃ P ∈ st.projects, q.owner_id = P.owner_id ∧ q.members = P.members := by
  unfold update_project at hq
  rcases hfind : st.projects.find? (fun p => p.id = pid) with _ | P <;> rw [hfind] at hq
  · exact Or.inl hq
  · dsimp only at hq
    split at hq
    · exact Or.inl hq
    · rcases updateProjectRecord_mem _ _ _ _ hq with hmem | hnew
      · exact Or.inl hmem
      · exact Or.inr ⟨P, List.mem_of_find?_eq_some hfind, by rw [hnew], by rw [hnew]⟩

/-- Only `create_project` and `update_project` produce project records; the
first seeds `members` with the owner, the second never touches `owner_id` or
`members`. -/
theorem reachable_owner_mem (st : Store) (h : Reachable st) :
    ∀ p ∈ st.projects, p.owner_id ∈ p.members := by
  induction h with
  | init => intro p hp; exact absurd hp (by simp [emptyStore])
  | register st uc nid hp ca hre ih => rw [register_projects_eq]; exact ih
  | create_project st pc cu nid ca hre ih =>
    rw [create_project_projects_eq]
    intro q hq
    rcases List.mem_append.mp hq with hmem | hnew
    · exact ih q hmem
    · rw [List.mem_singleton.mp hnew]; exact List.mem_singleton.mpr rfl
  | create_task st tc cu nid ca hre ih => rw [create_task_projects_eq]; exact ih
  | assign_task st tid aid cu hre ih => rw [assign_task_projects_eq]; exact ih
  | update_task_status st tid s cu hre ih =>
    rw [update_task_status_projects_eq]; exact ih
  | update_task st tid td cu hre ih => rw [update_task_projects_eq]; exact ih
  | update_project st pid pd cu hre ih =>
    intro q hq
    rcases update_project_projects_sub st pid pd cu q hq with hmem | ⟨P, hPmem, hqo, hqm⟩
    · exact ih q hmem
    · rw [hqo, hqm]; exact ih P hPmem

/-- Only `register` produces user records, and it refuses a duplicate email,
so every email occurs at most once among the stored users. -/
theorem reachable_email_unique (st : Store) (h : Reachable st) (e : String) :
    st.users.countP (fun u => u.email = e) ≤ 1 := by
  induction h with
  | init => exact Nat.zero_le 1
  | register st uc nid hp ca hre ih =>
    unfold register
    by_cases hdup : st.users.any (fun u => u.email = uc.email)
    · rw [if_pos hdup]; exact ih
    · rw [if_neg hdup]
      have hnone : ∀ u ∈ st.users, u.email ≠ uc.email := by
        intro u hu heq
        exact hdup (List.any_eq_true.mpr ⟨u, hu, by simp [heq]⟩)
      by_cases he : uc.email = e
      · have hzero : st.users.countP (fun u => u.email = e) = 0 :=
          List.countP_eq_zero.mpr (by intro u hu; simpa [he] using hnone u hu)
        simp [List.countP_append, hzero, List.countP_cons, he]
      · have hone : List.countP (fun u => decide (u.email = e))
            [(⟨nid, uc.email, uc.name, ca, hp⟩ : User)] = 0 := by
          simp [List.countP_cons, he]
        calc List.countP (fun u => decide (u.email = e))
              (st.users ++ [(⟨nid, uc.email, uc.name, ca, hp⟩ : User)])
            = st.users.countP (fun u => u.email = e) := by
              simp [List.countP_append, hone]
          _ ≤ 1 := ih
  | create_project st pc cu nid ca hre ih => rw [create_project_users_eq]; exact ih
  | create_task st tc cu nid ca hre ih => rw [create_task_users_eq]; exact ih
  | assign_task st tid aid cu hre ih => rw [assign_task_users_eq]; exact ih
  | update_task_status st tid s cu hre ih => rw [update_task_status_users_eq]; exact ih
  | update_project st pid pd cu hre ih => rw [update_project_users_eq]; exact ih
  | update_task st tid td cu hre ih => rw [update_task_users_eq]; exact ih

/-! ### Lookup semantics of the Python dict merge. -/

theorem getField_nil (k : String) : getField ([] : RawRecord) k = none := rfl

theorem getField_cons (kv : String × String) (rest : RawRecord) (k : String) :
    getField (kv :: rest) k = if kv.1 = k then some kv.2 else getField rest k := by
  unfold getField
  by_cases h : kv.1 = k
  · rw [List.find?_cons_of_pos _ (by simp [h]), if_pos h]; rfl
  · rw [List.find?_cons_of_neg _ (by simp [h]), if_neg h]

theorem getField_append (a b : RawRecord) (k : String) :
    getField (a ++ b) k
      = match getField a k with
        | some v => some v
        | none => getField b k := by
  induction a with
  | nil => rw [List.nil_append, getField_nil]
  | cons kv rest ih =>
    rw [List.cons_append, getField_cons, getField_cons]
    by_cases h : kv.1 = k
    · rw [if_pos h, if_pos h]
    · rw [if_neg h, if_neg h, ih]

theorem getField_map_override (r p : RawRecord) (k : String) :
    getField
        (List.map
          (fun kv =>
            match getField p kv.1 with
            | some v => (kv.1, v)
            | none => kv)
          r) k
      = match getField r k with
        | none => none
        | some v =>
          match getField p k with
          | some w => some w
          | none => some v := by
  induction r with
  | nil => rfl
  | cons kv rest ih =>
    rw [List.map_cons, getField_cons]
    by_cases h : kv.1 = k
    · have hfst : (match getField p kv.1 with
          | some v => (kv.1, v)
          | none => kv).1 = kv.1 := by
        rcases getField p kv.1 with _ | v <;> rfl
      rw [getField_cons, if_pos (hfst.trans h), if_pos h, h]
      rcases getField p k with _ | w
      · simp_all
      · simp_all
    · have hfst : (match getField p kv.1 with
          | some v => (kv.1, v)
          | none => kv).1 = kv.1 := by
        rcases getField p kv.1 with _ | v <;> rfl
      rw [getField_cons, if_neg (hfst.symm ▸ h), if_neg h, ih]

theorem getField_filter_new (r p : RawRecord) (k : String) (h : getField r k = none) :
    getField (List.filter (fun kv => (getField r kv.1).isNone) p) k = getField p k := by
  induction p with
  | nil => rfl
  | cons kv rest ih =>
    rw [getField_cons, List.filter_cons]
    by_cases hk : kv.1 = k
    · have hkeep : (getField r kv.1).isNone = true := by rw [hk, h]; rfl
      rw [if_pos hkeep, getField_cons]
      simp [hk]
    · rw [if_neg hk]
      by_cases hkeep : (getField r kv.1).isNone = true
      · rw [if_pos hkeep, getField_cons, if_neg hk, ih]
      · rw [if_neg hkeep, ih]

/-- The contract of `{**rec, **patch}`: a field named in `patch` takes the
patch's value, any other field of `rec` keeps its prior value. -/
theorem getField_dictMerge (rec patch : RawRecord) (k : String) :
    getField (dictMerge rec patch) k
      = match getField patch k with
        | some v => some v
        | none => getField rec k := by
  unfold dictMerge
  rw [getField_append, getField_map_override]
  rcases hr : getField rec k with _ | v
  · rw [getField_filter_new rec patch k hr]
    rcases getField patch k with _ | w <;> rfl
  · rcases getField patch k with _ | w <;> rfl

/-! ### Reachability of the fixtures, and case splits used for error frames. -/

theorem reach_st1 : Reachable st1 := Reachable.register _ _ _ _ _ Reachable.init

theorem reach_st2 : Reachable st2 := Reachable.register _ _ _ _ _ reach_st1

theorem reach_st3 : Reachable st3 := Reachable.create_project _ _ _ _ _ reach_st2

theorem reach_st4 : Reachable st4 := Reachable.create_task _ _ _ _ _ reach_st3

theorem register_cases (st : Store) (uc : UserCreate) (nid hp ca : String) :
    (register st uc nid hp ca).2 = st ∨ ∃ v, (register st uc nid hp ca).1 = .ok v := by
  unfold register
  split
  · exact Or.inl rfl
  · exact Or.inr ⟨_, rfl⟩

theorem create_task_cases (st : Store) (tc : TaskCreate) (cu : User) (nid ca : String) :
    (create_task st tc cu nid ca).2 = st
      ∨ ∃ v, (create_task st tc cu nid ca).1 = .ok v := by
  unfold create_task
  repeat' split
  · exact Or.inl rfl
  · exact Or.inl rfl
  · exact Or.inr ⟨_, rfl⟩

theorem assign_task_cases (st : Store) (tid aid : String) (cu : User) :
    (assign_task st tid aid cu).2 = st
      ∨ ∃ v, (assign_task st tid aid cu).1 = .ok v := by
  unfold assign_task
  repeat' split
  · exact Or.inl rfl
  · exact Or.inl rfl
  · exact Or.inl rfl
  · exact Or.inl rfl
  · exact Or.inr ⟨_, rfl⟩

theorem update_task_status_cases (st : Store) (tid s : String) (cu : User) :
    (update_task_status st tid s cu).2 = st
      ∨ ∃ v, (update_task_status st tid s cu).1 = .ok v := by
  unfold update_task_status
  repeat' split
  · exact Or.inl rfl
  · exact Or.inl rfl
  · exact Or.inl rfl
  · exact Or.inl rfl
  · exact Or.inr ⟨_, rfl⟩

theorem update_project_cases (st : Store) (pid : String) (pd : ProjectCreate) (cu : User) :
    (update_project st pid pd cu).2 = st
      ∨ ∃ v, (update_project st pid pd cu).1 = .ok v := by
  unfold update_project
  repeat' split
  · exact Or.inl rfl
  · exact Or.inl rfl
  · exact Or.inr ⟨_, rfl⟩

theorem update_task_cases (st : Store) (tid : String) (td : TaskCreate) (cu : User) :
    (update_task st tid td cu).2 = st
      ∨ ∃ v, (update_task st tid td cu).1 = .ok v := by
  unfold update_task
  repeat' split
  · exact Or.inl rfl
  · exact Or.inl rfl
  · exact Or.inl rfl
  · exact Or.inr ⟨_, rfl⟩

/-! ### Unfolding equations for the raw store update. -/

theorem JSONStorage.update_task_nil (i : String) (patch : RawRecord) :
    JSONStorage.update_task [] i patch = some [] := rfl

theorem JSONStorage.update_task_cons (t : RawRecord) (rest : List RawRecord)
    (i : String) (patch : RawRecord) :
    JSONStorage.update_task (t :: rest) i patch
      = match getField t "id" with
        | none => none
        | some j =>
          if j = i then some (dictMerge t patch :: rest)
          else Option.map (fun l => t :: l) (JSONStorage.update_task rest i patch) := rfl

/-! ### The claims. -/

/-- C1: in every store reachable through the API, every project record
satisfies `owner_id ∈ members`; and immediately after `create_project` by user
`cu` the returned project's `members` list is exactly `[cu.id]` and that
project is what was appended to the collection. -/
theorem C1_owner_always_member (st : Store) (h : Reachable st) (pc : ProjectCreate)
    (cu : User) (nid ca : String) :
    (∀ p ∈ st.projects, p.owner_id ∈ p.members) ∧
    (create_project st pc cu nid ca).1.members = [cu.id] ∧
    (create_project st pc cu nid ca).2.projects
      = st.projects ++ [(create_project st pc cu nid ca).1] :=
  ⟨reachable_owner_mem st h, rfl, rfl⟩

theorem C1_owner_always_member_witness :
    projA.owner_id ∈ projA.members ∧
    (create_project st3 ⟨"Proj2", none⟩ alice "pB" "t9").1.members = [alice.id] :=
  ⟨(C1_owner_always_member st3 reach_st3 ⟨"Proj2", none⟩ alice "pB" "t9").1 projA
      (by decide),
    (C1_owner_always_member st3 reach_st3 ⟨"Proj2", none⟩ alice "pB" "t9").2.1⟩

/-- C2: when the target project exists but the actor is not in its `members`,
`create_task` fails with the very same 404 `HTTPException` that is raised when
the project is absent (no distinguishable `AccessDenied`), and the store —
in particular the tasks collection — is returned unchanged. -/
theorem C2_nonmember_create_task (st : Store) (tc : TaskCreate) (cu : User)
    (nid ca : String) (P : Project)
    (hP : st.projects.find? (fun p => p.id = tc.project_id) = some P)
    (hnm : cu.id ∉ P.members) :
    create_task st tc cu nid ca = (.error projectNotFoundOrDenied, st) ∧
    ∀ (st2 : Store) (tc2 : TaskCreate) (cu2 : User) (nid2 ca2 : String),
      st2.projects.find? (fun p => p.id = tc2.project_id) = none →
      create_task st2 tc2 cu2 nid2 ca2 = (.error projectNotFoundOrDenied, st2) := by
  constructor
  · unfold create_task
    rw [hP]
    dsimp only
    rw [if_pos hnm]
  · intro st2 tc2 cu2 nid2 ca2 hnone
    unfold create_task
    rw [hnone]

theorem C2_nonmember_create_task_witness :
    create_task st3 ⟨"T2", none, "pA"⟩ bob "tB" "t9"
      = (.error projectNotFoundOrDenied, st3) :=
  (C2_nonmember_create_task st3 ⟨"T2", none, "pA"⟩ bob "tB" "t9" projA
    (by decide) (by decide)).1

/-- C3: for an existing task whose project the actor belongs to, assigning to a
non-member of that project fails with the 400 `InvalidAssignee` exception, the
store is unchanged, and in particular the stored task (with its `assignee_id`)
is still found intact. -/
theorem C3_invalid_assignee (st : Store) (tid aid : String) (cu : User) (T : Task)
    (P : Project)
    (hT : st.tasks.find? (fun t => t.id = tid) = some T)
    (hP : st.projects.find? (fun p => p.id = T.project_id) = some P)
    (hcu : cu.id ∈ P.members) (hna : aid ∉ P.members) :
    assign_task st tid aid cu
        = (.error (.http ⟨400, "Assignee must be a project member"⟩), st) ∧
    (assign_task st tid aid cu).2.tasks.find? (fun t => t.id = tid) = some T := by
  have hmain : assign_task st tid aid cu
      = (.error (.http ⟨400, "Assignee must be a project member"⟩), st) := by
    unfold assign_task
    rw [hT]
    dsimp only
    rw [hP]
    dsimp only
    rw [if_neg (not_not_intro hcu), if_pos hna]
  exact ⟨hmain, by rw [hmain]; exact hT⟩

theorem C3_invalid_assignee_witness :
    assign_task st4 "tA" "uB" alice
        = (.error (.http ⟨400, "Assignee must be a project member"⟩), st4) ∧
    (assign_task st4 "tA" "uB" alice).2.tasks.find? (fun t => t.id = "tA")
        = some taskA :=
  C3_invalid_assignee st4 "tA" "uB" alice taskA projA (by decide) (by decide)
    (by decide) (by decide)

/-- C4, as the code actually behaves: with the task present and the actor a
member of its project, a status value outside `valid_statuses` leaves the task
unchanged but the handler fails with `AttributeError` (surfaced as HTTP 500),
not the intended 400 `InvalidStatus`, because the `status` parameter shadows
the `fastapi.status` module at the raise site; a value inside `valid_statuses`
always succeeds, whatever the task's current status. -/
theorem C4_status_update_behaviour (st : Store) (tid s : String) (cu : User)
    (T : Task) (P : Project)
    (hT : st.tasks.find? (fun t => t.id = tid) = some T)
    (hP : st.projects.find? (fun p => p.id = T.project_id) = some P)
    (hcu : cu.id ∈ P.members) :
    (s ∉ valid_statuses →
      update_task_status st tid s cu
        = (.error (.attributeError "str object has no attribute HTTP_400_BAD_REQUEST"),
            st)) ∧
    (s ∈ valid_statuses →
      update_task_status st tid s cu
        = (.ok { T with status := s },
            { st with tasks := updateTaskRecord st.tasks tid { T with status := s } })) := by
  constructor
  · intro hs
    unfold update_task_status
    rw [hT]
    dsimp only
    rw [hP]
    dsimp only
    rw [if_neg (not_not_intro hcu), if_pos hs]
  · intro hs
    unfold update_task_status
    rw [hT]
    dsimp only
    rw [hP]
    dsimp only
    rw [if_neg (not_not_intro hcu), if_neg (not_not_intro hs)]

theorem C4_status_update_behaviour_witness :
    update_task_status st4 "tA" "blah" alice
      = (.error (.attributeError "str object has no attribute HTTP_400_BAD_REQUEST"),
          st4) ∧
    update_task_status st4 "tA" "done" alice
      = (.ok { taskA with status := "done" },
          { st4 with tasks := updateTaskRecord st4.tasks "tA" { taskA with status := "done" } }) :=
  ⟨(C4_status_update_behaviour st4 "tA" "blah" alice taskA projA (by decide)
      (by decide) (by decide)).1 (by decide),
    (C4_status_update_behaviour st4 "tA" "done" alice taskA projA (by decide)
      (by decide) (by decide)).2 (by decide)⟩

/-- C5: when the owner edits a project, the persisted record takes exactly the
requested `name` and `description`, while `id`, `owner_id`, `members` and
`created_at` keep their prior values, and every other record of the collection
is untouched. -/
theorem C5_update_project_frame (st : Store) (pre suf : List Project) (P : Project)
    (pid : String) (pd : ProjectCreate) (cu : User)
    (hst : st.projects = pre ++ P :: suf)
    (hpre : ∀ q ∈ pre, q.id ≠ pid)
    (hid : P.id = pid)
    (hown : P.owner_id = cu.id) :
    ∃ P2, update_project st pid pd cu
        = (.ok P2, { st with projects := pre ++ P2 :: suf })
      ∧ P2.name = pd.name ∧ P2.description = pd.description
      ∧ P2.id = P.id ∧ P2.owner_id = P.owner_id ∧ P2.members = P.members
      ∧ P2.created_at = P.created_at := by
  refine ⟨{ P with name := pd.name, description := pd.description },
    ?_, rfl, rfl, rfl, rfl, rfl, rfl⟩
  have hfind : st.projects.find? (fun p => p.id = pid) = some P := by
    rw [hst]
    exact find?_append_cons _ pre suf P (fun x hx => by simp [hpre x hx]) (by simp [hid])
  unfold update_project
  rw [hfind]
  dsimp only
  rw [if_neg (not_not_intro hown), hst,
    updateProjectRecord_append_cons pre suf P _ pid hpre hid]

theorem C5_update_project_frame_witness :
    ∃ P2, update_project st3 "pA" ⟨"Renamed", some "d"⟩ alice
        = (.ok P2, { st3 with projects := [] ++ P2 :: [] })
      ∧ P2.name = "Renamed" ∧ P2.description = some "d"
      ∧ P2.id = projA.id ∧ P2.owner_id = projA.owner_id
      ∧ P2.members = projA.members ∧ P2.created_at = projA.created_at :=
  C5_update_project_frame st3 [] [] projA "pA" ⟨"Renamed", some "d"⟩ alice
    (by decide) (by intro q hq; exact absurd hq (List.not_mem_nil q))
    (by decide) (by decide)

/-- C6: when the collection holds a record bearing the requested id (and every
record before it has a different id), the store-level `update` replaces that
record by the Python merge `{**record, **patch}` — a field named in `patch`
takes the patch's value, any other field keeps its prior value — and the rest
of the collection is persisted unchanged. -/
theorem C6_store_update_merges (pre suf : List RawRecord) (R : RawRecord)
    (i : String) (patch : RawRecord)
    (hpre : ∀ r ∈ pre, ∃ j, getField r "id" = some j ∧ j ≠ i)
    (hR : getField R "id" = some i) :
    JSONStorage.update_task (pre ++ R :: suf) i patch
        = some (pre ++ dictMerge R patch :: suf) ∧
    ∀ k, getField (dictMerge R patch) k
        = match getField patch k with
          | some v => some v
          | none => getField R k := by
  refine ⟨?_, fun k => getField_dictMerge R patch k⟩
  induction pre with
  | nil =>
    rw [List.nil_append, List.nil_append, JSONStorage.update_task_cons, hR]
    dsimp only
    rw [if_pos rfl]
  | cons r rest ih =>
    obtain ⟨j, hj, hji⟩ := hpre r (List.mem_cons_self r rest)
    rw [List.cons_append, List.cons_append, JSONStorage.update_task_cons, hj]
    dsimp only
    rw [if_neg hji, ih (fun x hx => hpre x (List.mem_cons_of_mem r hx))]
    rfl

theorem C6_store_update_merges_witness :
    JSONStorage.update_task
        ([[("id", "1"), ("x", "a")]] ++ [("id", "2"), ("x", "b")] :: [])
        "2" [("x", "new"), ("z", "d")]
      = some ([[("id", "1"), ("x", "a")]]
          ++ dictMerge [("id", "2"), ("x", "b")] [("x", "new"), ("z", "d")] :: []) ∧
    getField (dictMerge [("id", "2"), ("x", "b")] [("x", "new"), ("z", "d")]) "x"
      = match getField [("x", "new"), ("z", "d")] "x" with
        | some v => some v
        | none => getField [("id", "2"), ("x", "b")] "x" :=
  ⟨(C6_store_update_merges [[("id", "1"), ("x", "a")]] [] [("id", "2"), ("x", "b")]
      "2" [("x", "new"), ("z", "d")]
      (by
        intro r hr
        rw [List.mem_singleton] at hr
        subst hr
        exact ⟨"1", rfl, by decide⟩)
      rfl).1,
    (C6_store_update_merges [[("id", "1"), ("x", "a")]] [] [("id", "2"), ("x", "b")]
      "2" [("x", "new"), ("z", "d")]
      (by
        intro r hr
        rw [List.mem_singleton] at hr
        subst hr
        exact ⟨"1", rfl, by decide⟩)
      rfl).2 "x"⟩

/-- C7: when no record of the collection bears the requested id, the
store-level `update` raises nothing and persists the collection exactly as it
was — a silent no-op. -/
theorem C7_store_update_unknown_id_noop (tasks : List RawRecord) (i : String)
    (patch : RawRecord)
    (h : ∀ r ∈ tasks, ∃ j, getField r "id" = some j ∧ j ≠ i) :
    JSONStorage.update_task tasks i patch = some tasks := by
  induction tasks with
  | nil => rfl
  | cons t rest ih =>
    obtain ⟨j, hj, hji⟩ := h t (List.mem_cons_self t rest)
    rw [JSONStorage.update_task_cons, hj]
    dsimp only
    rw [if_neg hji, ih (fun x hx => h x (List.mem_cons_of_mem t hx))]
    rfl

theorem C7_store_update_unknown_id_noop_witness :
    JSONStorage.update_task [[("id", "1"), ("x", "a")], [("id", "2")]] "9" [("x", "z")]
      = some [[("id", "1"), ("x", "a")], [("id", "2")]] :=
  C7_store_update_unknown_id_noop [[("id", "1"), ("x", "a")], [("id", "2")]] "9"
    [("x", "z")]
    (by
      intro r hr
      rcases List.mem_cons.mp hr with h1 | h2
      · subst h1; exact ⟨"1", rfl, by decide⟩
      · rw [List.mem_singleton] at h2; subst h2; exact ⟨"2", rfl, by decide⟩)

/-- C8: in a reachable store already holding a user with the requested email,
`register` fails with the 400 `DuplicateEmail` exception and afterwards the
users collection holds exactly one record with that email. -/
theorem C8_duplicate_email (st : Store) (h : Reachable st) (uc : UserCreate)
    (nid hp ca : String) (hdup : ∃ u ∈ st.users, u.email = uc.email) :
    register st uc nid hp ca
        = (.error (.http ⟨400, "Email already registered"⟩), st) ∧
    (register st uc nid hp ca).2.users.countP (fun u => u.email = uc.email) = 1 := by
  have hany : st.users.any (fun u => u.email = uc.email) = true := by
    obtain ⟨u, hu, he⟩ := hdup
    exact List.any_eq_true.mpr ⟨u, hu, by simp [he]⟩
  have hmain : register st uc nid hp ca
      = (.error (.http ⟨400, "Email already registered"⟩), st) := by
    unfold register
    rw [if_pos hany]
  refine ⟨hmain, ?_⟩
  rw [hmain]
  have hle := reachable_email_unique st h uc.email
  have hpos : 0 < st.users.countP (fun u => u.email = uc.email) := by
    obtain ⟨u, hu, he⟩ := hdup
    exact List.countP_pos_iff.mpr ⟨u, hu, by simp [he]⟩
  exact Nat.le_antisymm hle hpos

theorem C8_duplicate_email_witness :
    register st2 aliceCreate "uX" "hX" "t9"
        = (.error (.http ⟨400, "Email already registered"⟩), st2) ∧
    (register st2 aliceCreate "uX" "hX" "t9").2.users.countP
        (fun u => u.email = aliceCreate.email) = 1 :=
  C8_duplicate_email st2 reach_st2 aliceCreate "uX" "hX" "t9"
    ⟨alice, by decide, by decide⟩

/-- C9: when a member edits a task, the persisted record takes exactly the
requested `title` and `description`; `project_id` stays what it was even though
the request body carries a `project_id` field (here an arbitrary, possibly
different value), and `id`, `status`, `assignee_id` and `created_at` are also
unchanged, as is every other record of the collection. -/
theorem C9_update_task_frame (st : Store) (pre suf : List Task) (T : Task)
    (tid : String) (td : TaskCreate) (cu : User) (P : Project)
    (hst : st.tasks = pre ++ T :: suf)
    (hpre : ∀ q ∈ pre, q.id ≠ tid)
    (hid : T.id = tid)
    (hP : st.projects.find? (fun p => p.id = T.project_id) = some P)
    (hcu : cu.id ∈ P.members) :
    ∃ T2, update_task st tid td cu = (.ok T2, { st with tasks := pre ++ T2 :: suf })
      ∧ T2.title = td.title ∧ T2.description = td.description
      ∧ T2.project_id = T.project_id ∧ T2.id = T.id ∧ T2.status = T.status
      ∧ T2.assignee_id = T.assignee_id ∧ T2.created_at = T.created_at := by
  refine ⟨{ T with title := td.title, description := td.description },
    ?_, rfl, rfl, rfl, rfl, rfl, rfl, rfl⟩
  have hfind : st.tasks.find? (fun t => t.id = tid) = some T := by
    rw [hst]
    exact find?_append_cons _ pre suf T (fun x hx => by simp [hpre x hx]) (by simp [hid])
  unfold update_task
  rw [hfind]
  dsimp only
  rw [hP]
  dsimp only
  rw [if_neg (not_not_intro hcu), hst,
    updateTaskRecord_append_cons pre suf T _ tid hpre hid]

theorem C9_update_task_frame_witness :
    ∃ T2, update_task st4 "tA" ⟨"NewTitle", some "nd", "SOME_OTHER_PROJECT"⟩ alice
        = (.ok T2, { st4 with tasks := [] ++ T2 :: [] })
      ∧ T2.title = "NewTitle" ∧ T2.description = some "nd"
      ∧ T2.project_id = taskA.project_id ∧ T2.id = taskA.id
      ∧ T2.status = taskA.status ∧ T2.assignee_id = taskA.assignee_id
      ∧ T2.created_at = taskA.created_at :=
  C9_update_task_frame st4 [] [] taskA "tA"
    ⟨"NewTitle", some "nd", "SOME_OTHER_PROJECT"⟩ alice projA
    (by decide) (by intro q hq; exact absurd hq (List.not_mem_nil q))
    (by decide) (by decide) (by decide)

/-- C10: every handler that can fail performs all of its lookups, membership
and validation checks before its single storage write, so whenever the result
is an error (an `HTTPException` or the shadowing `AttributeError`), the store —
all three collections — is exactly the input store. `create_project` is the
one mutating handler with no failure path at all. -/
theorem C10_error_implies_unchanged (st : Store) :
    (∀ (uc : UserCreate) (nid hp ca : String) (e : Failure),
      (register st uc nid hp ca).1 = .error e → (register st uc nid hp ca).2 = st) ∧
    (∀ (tc : TaskCreate) (cu : User) (nid ca : String) (e : Failure),
      (create_task st tc cu nid ca).1 = .error e
        → (create_task st tc cu nid ca).2 = st) ∧
    (∀ (tid aid : String) (cu : User) (e : Failure),
      (assign_task st tid aid cu).1 = .error e → (assign_task st tid aid cu).2 = st) ∧
    (∀ (tid s : String) (cu : User) (e : Failure),
      (update_task_status st tid s cu).1 = .error e
        → (update_task_status st tid s cu).2 = st) ∧
    (∀ (pid : String) (pd : ProjectCreate) (cu : User) (e : Failure),
      (update_project st pid pd cu).1 = .error e
        → (update_project st pid pd cu).2 = st) ∧
    (∀ (tid : String) (td : TaskCreate) (cu : User) (e : Failure),
      (update_task st tid td cu).1 = .error e → (update_task st tid td cu).2 = st) := by
  refine ⟨?_, ?_, ?_, ?_, ?_, ?_⟩
  · intro uc nid hp ca e he
    rcases register_cases st uc nid hp ca with h2 | ⟨v, hv⟩
    · exact h2
    · rw [hv] at he; cases he
  · intro tc cu nid ca e he
    rcases create_task_cases st tc cu nid ca with h2 | ⟨v, hv⟩
    · exact h2
    · rw [hv] at he; cases he
  · intro tid aid cu e he
    rcases assign_task_cases st tid aid cu with h2 | ⟨v, hv⟩
    · exact h2
    · rw [hv] at he; cases he
  · intro tid s cu e he
    rcases update_task_status_cases st tid s cu with h2 | ⟨v, hv⟩
    · exact h2
    · rw [hv] at he; cases he
  · intro pid pd cu e he
    rcases update_project_cases st pid pd cu with h2 | ⟨v, hv⟩
    · exact h2
    · rw [hv] at he; cases he
  · intro tid td cu e he
    rcases update_task_cases st tid td cu with h2 | ⟨v, hv⟩
    · exact h2
    · rw [hv] at he; cases he

theorem C10_error_implies_unchanged_witness :
    (create_task emptyStore ⟨"T", none, "missing"⟩ alice "i" "c").2 = emptyStore :=
  (C10_error_implies_unchanged emptyStore).2.1 ⟨"T", none, "missing"⟩ alice "i" "c"
    projectNotFoundOrDenied rfl

end Tasker
